import Mathlib

/-!
Verification of the snapshot-store and restore logic of
`zero_migrations` (files `zero_migrations/backup.py` and
`zero_migrations/utils/restore.py`).

The Python code is shallowly embedded: strings are Lean `String`s
(Python compares and sorts `str` by code points, exactly as Lean's
lexicographic order on `String`), file contents are the parsed JSON
values they hold (`json.dump` followed by `json.load` is the identity
on JSON-representable values), datetimes are a record of calendar
fields, and every fallible Python operation (raised exception) returns
`Option`/`none`.
-/

namespace ZeroMigrations

/-! ### Python string primitives used by `backup.py` -/

/-- Models Python `str.endswith(suf)`: code-point suffix test. -/
def pyEndswith (s suf : String) : Bool :=
  suf.data.isSuffixOf s.data

/-- Models the Python slice `s[:4]` (used as `latest_revision[:self._revision_num_len]`
with `_revision_num_len = len("0001") = 4`). -/
def pyTake4 (s : String) : String :=
  ⟨s.data.take 4⟩

/-- Models the Python slice `s[4:]` (used as `latest_revision[self._revision_num_len:]`). -/
def pyDrop4 (s : String) : String :=
  ⟨s.data.drop 4⟩

/-- Numeric value of a decimal digit character. -/
def digVal (c : Char) : Nat :=
  c.toNat - 48

/-- Decimal digit test, as Python `int()` accepts for its digits. -/
def isDig (c : Char) : Bool :=
  48 ≤ c.toNat && c.toNat ≤ 57

/-- Models Python `int(s)` on the strings this code can feed it: succeeds on a
non-empty all-digit string with its decimal value, fails (`ValueError`) otherwise. -/
def pyInt? (s : String) : Option Nat :=
  if s.data ≠ [] ∧ s.data.all isDig then
    some (s.data.foldl (fun acc c => 10 * acc + digVal c) 0)
  else
    none

/-- The four decimal digit characters of `n < 10000`, most significant first. -/
def pad4c (n : Nat) : List Char :=
  [Nat.digitChar (n / 1000 % 10), Nat.digitChar (n / 100 % 10),
   Nat.digitChar (n / 10 % 10), Nat.digitChar (n % 10)]

/-- Two decimal digit characters of `n < 100`, most significant first. -/
def pad2c (n : Nat) : List Char :=
  [Nat.digitChar (n / 10 % 10), Nat.digitChar (n % 10)]

/-- Six decimal digit characters of `n < 1000000`, most significant first. -/
def pad6c (n : Nat) : List Char :=
  [Nat.digitChar (n / 100000 % 10), Nat.digitChar (n / 10000 % 10),
   Nat.digitChar (n / 1000 % 10), Nat.digitChar (n / 100 % 10),
   Nat.digitChar (n / 10 % 10), Nat.digitChar (n % 10)]

/-- Models Python `"%04d" % n` for `n ≥ 0`: the decimal representation of `n`
zero-padded on the left to a minimum width of 4 (wider when `n ≥ 10000`). -/
def pyFormat04 (n : Nat) : String :=
  if n < 10000 then ⟨pad4c n⟩ else toString n

/-- Code-point lexicographic comparison of character lists: exactly how
Python compares two `str` values. -/
def lexLtb : List Char → List Char → Bool
  | [], [] => false
  | [], _ :: _ => true
  | _ :: _, [] => false
  | a :: as, b :: bs => if a < b then true else if b < a then false else lexLtb as bs

/-- Models `sorted(xs)[-1]` on two strings: the larger in code-point
lexicographic order. -/
def strMax (a b : String) : String :=
  if lexLtb a.data b.data then b else a

/-! ### Python `datetime` (naive) -/

/-- A naive Python `datetime.datetime` value: calendar fields only.
(The rows this code snapshots carry naive or UTC datetimes; time-zone
offsets are not modelled.) -/
structure PyDatetime where
  year : Nat
  month : Nat
  day : Nat
  hour : Nat
  minute : Nat
  second : Nat
  microsecond : Nat
deriving DecidableEq, Repr

/-- Python's Gregorian leap-year test. -/
def isLeapYear (y : Nat) : Bool :=
  y % 4 == 0 && (y % 100 != 0 || y % 400 == 0)

/-- Days in a month, as Python's `datetime` validates. -/
def daysInMonth (y m : Nat) : Nat :=
  if m = 2 then (if isLeapYear y then 29 else 28)
  else if m = 4 ∨ m = 6 ∨ m = 9 ∨ m = 11 then 30
  else 31

/-- The field ranges the Python `datetime` constructor enforces. -/
def validDT (d : PyDatetime) : Bool :=
  1 ≤ d.year && d.year ≤ 9999 && 1 ≤ d.month && d.month ≤ 12 &&
  1 ≤ d.day && d.day ≤ daysInMonth d.year d.month &&
  d.hour ≤ 23 && d.minute ≤ 59 && d.second ≤ 59 && d.microsecond ≤ 999999

/-- Models `datetime.isoformat()` on a naive datetime:
`YYYY-MM-DDTHH:MM:SS`, with `.ffffff` appended exactly when the
microsecond field is nonzero. -/
def pyIsoformat (d : PyDatetime) : String :=
  ⟨pad4c d.year ++ '-' :: pad2c d.month ++ '-' :: pad2c d.day ++
   'T' :: pad2c d.hour ++ ':' :: pad2c d.minute ++ ':' :: pad2c d.second ++
   (if d.microsecond = 0 then [] else '.' :: pad6c d.microsecond)⟩

/-- Time-of-day part of `datetime.fromisoformat` (CPython 3.7–3.10):
`HH`, `HH:MM`, `HH:MM:SS`, `HH:MM:SS.fff` or `HH:MM:SS.ffffff`,
returning (hour, minute, second, microsecond). -/
def parseTimeChars : List Char → Option (Nat × Nat × Nat × Nat)
  | [h1, h2] =>
    if isDig h1 && isDig h2 then
      some (10 * digVal h1 + digVal h2, 0, 0, 0)
    else none
  | [h1, h2, ':', m1, m2] =>
    if isDig h1 && isDig h2 && isDig m1 && isDig m2 then
      some (10 * digVal h1 + digVal h2, 10 * digVal m1 + digVal m2, 0, 0)
    else none
  | [h1, h2, ':', m1, m2, ':', s1, s2] =>
    if isDig h1 && isDig h2 && isDig m1 && isDig m2 && isDig s1 && isDig s2 then
      some (10 * digVal h1 + digVal h2, 10 * digVal m1 + digVal m2,
            10 * digVal s1 + digVal s2, 0)
    else none
  | [h1, h2, ':', m1, m2, ':', s1, s2, '.', f1, f2, f3] =>
    if isDig h1 && isDig h2 && isDig m1 && isDig m2 && isDig s1 && isDig s2 &&
       isDig f1 && isDig f2 && isDig f3 then
      some (10 * digVal h1 + digVal h2, 10 * digVal m1 + digVal m2,
            10 * digVal s1 + digVal s2,
            (100 * digVal f1 + 10 * digVal f2 + digVal f3) * 1000)
    else none
  | [h1, h2, ':', m1, m2, ':', s1, s2, '.', f1, f2, f3, f4, f5, f6] =>
    if isDig h1 && isDig h2 && isDig m1 && isDig m2 && isDig s1 && isDig s2 &&
       isDig f1 && isDig f2 && isDig f3 && isDig f4 && isDig f5 && isDig f6 then
      some (10 * digVal h1 + digVal h2, 10 * digVal m1 + digVal m2,
            10 * digVal s1 + digVal s2,
            100000 * digVal f1 + 10000 * digVal f2 + 1000 * digVal f3 +
            100 * digVal f4 + 10 * digVal f5 + digVal f6)
    else none
  | _ => none

/-- Models `datetime.fromisoformat(s)` (CPython 3.7–3.10, naive part):
a `YYYY-MM-DD` date, optionally followed by a one-character separator
and a time-of-day; field ranges are validated as the `datetime`
constructor does. Returns `none` where Python raises `ValueError`.
Time-zone offsets are not modelled (see `PyDatetime`). -/
def pyFromIso (s : String) : Option PyDatetime :=
  match s.data with
  | y1 :: y2 :: y3 :: y4 :: '-' :: m1 :: m2 :: '-' :: d1 :: d2 :: rest =>
    if isDig y1 && isDig y2 && isDig y3 && isDig y4 &&
       isDig m1 && isDig m2 && isDig d1 && isDig d2 then
      let y := 1000 * digVal y1 + 100 * digVal y2 + 10 * digVal y3 + digVal y4
      let mo := 10 * digVal m1 + digVal m2
      let da := 10 * digVal d1 + digVal d2
      match rest with
      | [] =>
        let d : PyDatetime := ⟨y, mo, da, 0, 0, 0, 0⟩
        if validDT d then some d else none
      | _sep :: timeChars =>
        match parseTimeChars timeChars with
        | none => none
        | some (h, mi, se, us) =>
          let d : PyDatetime := ⟨y, mo, da, h, mi, se, us⟩
          if validDT d then some d else none
    else none
  | _ => none

/-! ### Values, records and snapshot files

A row-record is a flat field-name-to-value mapping (spec §3); a snapshot
file holds a JSON array of such records.  `PyVal` is the Python-side
value of a field; `JVal` is the JSON-representable value actually stored
in a file. -/

/-- A Python value appearing in a row-record handed to `BackupFile.write`:
`None`, `bool`, `int`, `str`, `datetime.datetime`, `datetime.date`, or
any other (non-JSON-serializable) object (`pother`). -/
inductive PyVal where
  | pnull : PyVal
  | pbool : Bool → PyVal
  | pint : Int → PyVal
  | pstr : String → PyVal
  | pdt : PyDatetime → PyVal
  | pdate : Nat → Nat → Nat → PyVal
  | pother : PyVal
deriving DecidableEq, Repr

/-- A JSON value as stored in a snapshot file. -/
inductive JVal where
  | jnull : JVal
  | jbool : Bool → JVal
  | jint : Int → JVal
  | jstr : String → JVal
deriving DecidableEq, Repr

/-- A row-record on the Python side: ordered field-name/value pairs
(Python dicts preserve insertion order). -/
abbrev PyRec : Type := List (String × PyVal)

/-- A row-record as stored in a snapshot file. -/
abbrev JRec : Type := List (String × JVal)

/-- Models `datetime.isoformat()` of a `datetime.date`: `YYYY-MM-DD`. -/
def pyIsoformatDate (y m d : Nat) : String :=
  ⟨pad4c y ++ '-' :: pad2c m ++ '-' :: pad2c d⟩

/-- How `json.dump(data, default=datetime_json_serialize)` in
`BackupFile.write` serializes one field value: JSON-native values pass
through; `datetime`/`date` hit the `default` hook and become their
`isoformat()` string; any other value hits the hook, which falls off its
`if` and returns `None`, so the value is stored as JSON `null`. -/
def serializeVal : PyVal → JVal
  | .pnull => .jnull
  | .pbool b => .jbool b
  | .pint n => .jint n
  | .pstr s => .jstr s
  | .pdt d => .jstr (pyIsoformat d)
  | .pdate y m d => .jstr (pyIsoformatDate y m d)
  | .pother => .jnull

/-- Serialization of a whole record by `BackupFile.write`. -/
def serializeRec (r : PyRec) : JRec :=
  r.map (fun p => (p.1, serializeVal p.2))

/-- How `datetime_json_deserialize` in `BackupFile.read` treats one
stored field value: `datetime.fromisoformat(value)` is attempted; on a
string that parses, the value becomes the parsed datetime; on a string
that does not parse (`ValueError`) or a non-string (`TypeError`) the
value is left as-is. -/
def deserializeVal : JVal → PyVal
  | .jnull => .pnull
  | .jbool b => .pbool b
  | .jint n => .pint n
  | .jstr s =>
    match pyFromIso s with
    | some d => .pdt d
    | none => .pstr s

/-- The `object_hook` applied by `BackupFile.read` to a whole record. -/
def deserializeRec (r : JRec) : PyRec :=
  r.map (fun p => (p.1, deserializeVal p.2))

/-! ### The `BackupFile` snapshot store

A `World` is the state of one dataset's backup directory
(`backups/<dir_name>/`): whether the directory exists, and its files as
name/content pairs in creation order.  All `BackupFile` operations are
parameterized by the dataset file name `f` (`self._file_name`).
`os.listdir` on a missing directory raises, so every operation that
lists the directory returns `none` when `dirExists` is false. -/

/-- State of one dataset's backup directory. -/
structure World where
  dirExists : Bool
  entries : List (String × List JRec)
deriving DecidableEq

/-- The file names in the directory, in creation order (`os.listdir`
order is irrelevant: the store sorts what it lists). -/
def World.names (w : World) : List String :=
  w.entries.map Prod.fst

/-- Models `BackupFile.latest_revision` on a directory listing `ns`:
keep the names ending with the dataset file name `f`, return `None` if
there are none, else the last of `sorted(...)`, i.e. the lexicographic
maximum. -/
def latestRevision (ns : List String) (f : String) : Option String :=
  match ns.filter (fun n => pyEndswith n f) with
  | [] => none
  | m :: ms => some (ms.foldl strMax m)

/-- Models `BackupFile.next_revision` on a directory listing: when no
revision exists, `"0001_" + file_name` (`REVISION_START_FROM = "0001"`);
otherwise `"%04d" % (int(latest[:4]) + 1)` (`make_next_revision_number`)
concatenated with `latest[4:]`.  `none` models the `ValueError` that
`int()` raises on a non-numeric prefix. -/
def nextRevision (ns : List String) (f : String) : Option String :=
  match latestRevision ns f with
  | none => some ("0001_" ++ f)
  | some latest =>
    match pyInt? (pyTake4 latest) with
    | none => none
    | some v => some (pyFormat04 (v + 1) ++ pyDrop4 latest)

/-- Models `BackupFile.latest_file_path` (within the backup directory):
the latest revision when one exists, else `new_file_path`, i.e. the
not-yet-written next revision. -/
def latestFilePath (ns : List String) (f : String) : Option String :=
  match latestRevision ns f with
  | some latest => some latest
  | none => nextRevision ns f

/-- Models `BackupFile.write(data)`: resolve `new_file_path` (which
lists the directory, so a missing directory raises) and open it with
mode `"w"`, truncating an existing file of that name or creating a new
one, then dump the serialized records.  `none` models a raised
exception. -/
def writeBF (w : World) (f : String) (data : List PyRec) : Option World :=
  if w.dirExists then
    match nextRevision w.names f with
    | none => none
    | some name =>
      if (w.names).contains name then
        some ⟨true, w.entries.map (fun e =>
          if e.1 = name then (e.1, data.map serializeRec) else e)⟩
      else
        some ⟨true, w.entries ++ [(name, data.map serializeRec)]⟩
  else none

/-- Models `BackupFile.read()`: resolve `latest_file_path` (listing the
directory), open it for reading (`FileNotFoundError` when absent, hence
`none`), parse the JSON and apply the datetime `object_hook` to every
record. -/
def readBF (w : World) (f : String) : Option (List PyRec) :=
  if w.dirExists then
    match latestFilePath w.names f with
    | none => none
    | some p =>
      match w.entries.lookup p with
      | none => none
      | some content => some (content.map deserializeRec)
  else none

/-- Models `BackupFile.__init__`: `Path(backup_dir_path).mkdir(parents=True,
exist_ok=True)` creates the directory tree when absent and is a no-op when
present; never an error. -/
def initBF (w : World) : World :=
  if w.dirExists then w else ⟨true, []⟩

/-- A sequence of consecutive `BackupFile.write` calls on the same
store, given the records each call writes; stops at the first raised
exception (`none`). -/
def writeSeq (f : String) (w : World) : List (List PyRec) → Option World
  | [] => some w
  | d :: ds =>
    match writeBF w f d with
    | none => none
    | some w' => writeSeq f w' ds

/-- The revision file name with 4-digit number `v` and dataset file
name `f`: `"<v padded to 4 digits>_<f>"`. -/
def str4 (v : Nat) (f : String) : String :=
  ⟨pad4c v ++ '_' :: f.data⟩

/-- The file names `"0001_<f>"`, …, `"<k padded>_<f>"` in order. -/
def revList (f : String) (k : Nat) : List String :=
  (List.range k).map (fun i => str4 (i + 1) f)

/-- A well-formed directory listing for dataset file name `f`: every
entry that ends with `f` is a revision file `"NNNN_<f>"` whose 4-digit
number is at most 9998 (so that one increment still fits the width). -/
def wfNames (ns : List String) (f : String) : Prop :=
  ∀ n ∈ ns, pyEndswith n f = true → ∃ v, v ≤ 9998 ∧ n = str4 v f

/-- Field values whose write/read round trip is lossless: JSON-native
scalars whose string form is not itself ISO-8601-parseable, and valid
datetimes. -/
def SafeVal : PyVal → Prop
  | .pnull => True
  | .pbool _ => True
  | .pint _ => True
  | .pstr s => pyFromIso s = none
  | .pdt d => validDT d = true
  | .pdate _ _ _ => False
  | .pother => False

instance : DecidablePred SafeVal := by
  intro v
  unfold SafeVal
  cases v <;> infer_instance

/-! ### The restore operation (`MigrationRestore.restore` /
`MigrationBackup.load`)

A reconstructed row is `Migration(**record)`: the record itself.  The
body does `Migration.objects.all().delete()` then
`Migration.objects.bulk_create(rows)` under `@transaction.atomic`. -/

/-- A row of the tracked migrations table, reconstructed by keyword
expansion of a record (`Migration(**migration)`). -/
def Row : Type := PyRec

/-- A database operation issued inside the restore transaction. -/
inductive DbOp where
  | deleteAll : DbOp
  | bulkCreate : List Row → DbOp

/-- Effect of one database operation on the tracked table's row list. -/
def applyOp (t : List Row) : DbOp → List Row
  | .deleteAll => []
  | .bulkCreate rs => t ++ rs

/-- Run operations in order; `failAt = some i` injects a failure
(raised database error) at the i-th remaining operation, `none` after
runs cleanly. -/
def runOps (t : List Row) : List DbOp → Option Nat → Option (List Row)
  | [], _ => some t
  | _ :: _, some 0 => none
  | op :: ops, failAt =>
    runOps (applyOp t op) ops (failAt.map (fun i => i - 1))

/-- Modelled from the spec: `django.db.transaction.atomic` (not part of
this repository) wraps a block in one transaction — on success its
operations' effects are committed, on any raised error the table is
rolled back to its state at entry (spec §4.3, §5, §7).  Returns the
resulting table and whether the block committed. -/
def atomicRun (t : List Row) (ops : List DbOp) (failAt : Option Nat) :
    List Row × Bool :=
  match runOps t ops failAt with
  | some t' => (t', true)
  | none => (t, false)

/-- Models `MigrationRestore.restore` (identical to
`MigrationBackup.load`): under `@transaction.atomic`, read the latest
snapshot into rows (`get_migrations_data_from_backup`), delete all rows
of the tracked table, bulk-insert the reconstructed rows.  A read
failure raises before any database write; `failAt` injects a database
failure into the delete (0) or the bulk-insert (1).  Returns the
table afterwards and whether the restore completed. -/
def restoreOp (w : World) (f : String) (table : List Row)
    (failAt : Option Nat) : List Row × Bool :=
  match readBF w f with
  | none => (table, false)
  | some recs => atomicRun table [DbOp.deleteAll, DbOp.bulkCreate recs] failAt

/-! ### Decimal digit and lexicographic-order lemmas -/

theorem isDig_digitChar {a : Nat} (h : a < 10) : isDig (Nat.digitChar a) = true := by
  interval_cases a <;> decide

theorem digVal_digitChar {a : Nat} (h : a < 10) : digVal (Nat.digitChar a) = a := by
  interval_cases a <;> decide

theorem digitChar_lt_digitChar {a b : Nat} (ha : a < 10) (hb : b < 10)
    (hab : a < b) : Nat.digitChar a < Nat.digitChar b := by
  interval_cases a <;> interval_cases b <;> simp_all <;> decide

theorem digitChar_inj {a b : Nat} (ha : a < 10) (hb : b < 10)
    (h : Nat.digitChar a = Nat.digitChar b) : a = b := by
  interval_cases a <;> interval_cases b <;> revert h <;> decide

/-- The order on `String` is lexicographic on the underlying character
lists (this is exactly how Python compares and sorts `str`). -/
theorem strLt_iff (s t : String) : s < t ↔ List.Lex (· < ·) s.data t.data :=
  String.lt_iff_toList_lt

/-- The executable comparison agrees with the lexicographic order. -/
theorem lexLtb_iff : ∀ l₁ l₂ : List Char, lexLtb l₁ l₂ = true ↔ List.Lex (· < ·) l₁ l₂
  | [], [] => by
    refine iff_of_false (by simp [lexLtb]) ?_
    intro h
    cases h
  | [], b :: bs => iff_of_true rfl List.Lex.nil
  | a :: as, [] => by
    refine iff_of_false (by simp [lexLtb]) ?_
    intro h
    cases h
  | a :: as, b :: bs => by
    unfold lexLtb
    rcases lt_trichotomy a b with hab | hab | hab
    · rw [if_pos hab]
      exact iff_of_true rfl (List.Lex.rel hab)
    · subst hab
      rw [if_neg (lt_irrefl a), if_neg (lt_irrefl a)]
      rw [lexLtb_iff as bs]
      constructor
      · exact List.Lex.cons
      · intro h
        cases h with
        | cons h => exact h
        | rel h => exact absurd h (lt_irrefl a)
    · rw [if_neg (asymm hab), if_pos hab]
      refine iff_of_false (by simp) ?_
      intro h
      cases h with
      | cons h => exact absurd hab (lt_irrefl a)
      | rel h => exact absurd hab (asymm h)

/-- The executable comparison agrees with the order on `String`. -/
theorem lexLtb_lt_iff (a b : String) : lexLtb a.data b.data = true ↔ a < b :=
  (lexLtb_iff _ _).trans (strLt_iff a b).symm

/-- Lexicographic order on char lists, restricted to equal-length
head segments, carries over to any continuations. -/
theorem lex_append_of_eq_len :
    ∀ {l₁ l₂ : List Char} (t₁ t₂ : List Char), l₁.length = l₂.length →
      List.Lex (· < ·) l₁ l₂ → List.Lex (· < ·) (l₁ ++ t₁) (l₂ ++ t₂) := by
  intro l₁ l₂ t₁ t₂ hlen hlt
  induction hlt with
  | nil => simp at hlen
  | @cons a as bs _ ih =>
    simp only [List.length_cons, Nat.succ_inj] at hlen
    exact List.Lex.cons (ih hlen)
  | rel hab => exact List.Lex.rel hab

theorem pad4c_length (n : Nat) : (pad4c n).length = 4 := rfl

theorem pad4c_all_dig (n : Nat) : (pad4c n).all isDig = true := by
  simp [pad4c, List.all_cons, isDig_digitChar (Nat.mod_lt _ (by norm_num))]

/-- `pad4c` is strictly monotone for the lexicographic order, below 10000. -/
theorem pad4c_lex {a b : Nat} (hab : a < b) (hb : b ≤ 9999) :
    List.Lex (· < ·) (pad4c a) (pad4c b) := by
  have h10 : ∀ n : Nat, n % 10 < 10 := fun n => Nat.mod_lt _ (by norm_num)
  have ha : a = 1000 * (a / 1000 % 10) + 100 * (a / 100 % 10) +
      10 * (a / 10 % 10) + a % 10 := by omega
  have hbd : b = 1000 * (b / 1000 % 10) + 100 * (b / 100 % 10) +
      10 * (b / 10 % 10) + b % 10 := by omega
  have key : a / 1000 % 10 < b / 1000 % 10 ∨
      (a / 1000 % 10 = b / 1000 % 10 ∧ (a / 100 % 10 < b / 100 % 10 ∨
        (a / 100 % 10 = b / 100 % 10 ∧ (a / 10 % 10 < b / 10 % 10 ∨
          (a / 10 % 10 = b / 10 % 10 ∧ a % 10 < b % 10))))) := by omega
  unfold pad4c
  rcases key with h | ⟨e1, h⟩
  · exact List.Lex.rel (digitChar_lt_digitChar (h10 _) (h10 _) h)
  · rw [e1]
    refine List.Lex.cons ?_
    rcases h with h | ⟨e2, h⟩
    · exact List.Lex.rel (digitChar_lt_digitChar (h10 _) (h10 _) h)
    · rw [e2]
      refine List.Lex.cons ?_
      rcases h with h | ⟨e3, h⟩
      · exact List.Lex.rel (digitChar_lt_digitChar (h10 _) (h10 _) h)
      · rw [e3]
        exact List.Lex.cons (List.Lex.rel (digitChar_lt_digitChar (h10 _) (h10 _) h))

theorem str4_data (v : Nat) (f : String) : (str4 v f).data = pad4c v ++ '_' :: f.data := rfl

/-- `str4` is strictly monotone in the revision number, below 10000. -/
theorem str4_lt {a b : Nat} (hab : a < b) (hb : b ≤ 9999) (f : String) :
    str4 a f < str4 b f := by
  rw [strLt_iff, str4_data, str4_data]
  exact lex_append_of_eq_len _ _ (by simp [pad4c_length]) (pad4c_lex hab hb)

theorem str4_inj {a b : Nat} (ha : a ≤ 9999) (hb : b ≤ 9999) (f : String)
    (h : str4 a f = str4 b f) : a = b := by
  rcases lt_trichotomy a b with hlt | he | hlt
  · exact absurd h (ne_of_lt (str4_lt hlt hb f))
  · exact he
  · exact absurd h.symm (ne_of_lt (str4_lt hlt ha f))

/-! ### Slicing and parsing revision file names -/

theorem pyTake4_str4 (v : Nat) (f : String) : pyTake4 (str4 v f) = ⟨pad4c v⟩ := by
  unfold pyTake4
  rw [str4_data]
  exact congrArg String.mk (List.take_left' (pad4c_length v))

theorem pyDrop4_str4 (v : Nat) (f : String) : pyDrop4 (str4 v f) = "_" ++ f := by
  unfold pyDrop4
  rw [str4_data]
  refine congrArg String.mk ?_
  rw [List.drop_left' (pad4c_length v)]
  rfl

theorem pyInt?_pad4c {n : Nat} (hn : n ≤ 9999) : pyInt? ⟨pad4c n⟩ = some n := by
  have h10 : ∀ m : Nat, m % 10 < 10 := fun m => Nat.mod_lt _ (by norm_num)
  unfold pyInt?
  rw [if_pos ⟨by simp [pad4c], pad4c_all_dig n⟩]
  refine congrArg some ?_
  show List.foldl _ 0 (pad4c n) = n
  simp only [pad4c, List.foldl_cons, List.foldl_nil,
    digVal_digitChar (h10 _)]
  omega

theorem pyFormat04_lt (n : Nat) (h : n < 10000) : pyFormat04 n = ⟨pad4c n⟩ := by
  unfold pyFormat04
  rw [if_pos h]

/-- `pyFormat04` of a number below 10000 concatenated with the rest of a
revision name is `str4`. -/
theorem pyFormat04_append (v : Nat) (h : v < 10000) (f : String) :
    pyFormat04 v ++ "_" ++ f = str4 v f := by
  rw [pyFormat04_lt v h]
  refine String.toList_inj.mp ?_
  show (⟨pad4c v⟩ ++ "_" ++ f : String).data = (str4 v f).data
  rw [str4_data, String.data_append, String.data_append]
  rfl

theorem str4_one (f : String) : str4 1 f = "0001_" ++ f := by
  refine String.toList_inj.mp ?_
  show (str4 1 f).data = ("0001_" ++ f).data
  rw [str4_data, String.data_append]
  rfl

/-! ### `pyEndswith` -/

theorem pyEndswith_append (s f : String) : pyEndswith (s ++ f) f = true := by
  unfold pyEndswith
  rw [List.isSuffixOf_iff_suffix, String.data_append]
  exact List.suffix_append _ _

theorem pyEndswith_str4 (v : Nat) (f : String) : pyEndswith (str4 v f) f = true := by
  unfold pyEndswith
  rw [List.isSuffixOf_iff_suffix, str4_data]
  exact ⟨pad4c v ++ ['_'], by simp⟩

/-! ### `strMax` and `latestRevision` -/

theorem strMax_le_left (a b : String) : a ≤ strMax a b := by
  unfold strMax
  split
  · exact le_of_lt ((lexLtb_lt_iff a b).mp (by assumption))
  · exact le_refl a

theorem strMax_le_right (a b : String) : b ≤ strMax a b := by
  unfold strMax
  split
  · exact le_refl b
  · refine not_lt.mp ?_
    intro hba
    exact absurd ((lexLtb_lt_iff a b).mpr hba) (by simp_all)

theorem strMax_cases (a b : String) : strMax a b = a ∨ strMax a b = b := by
  unfold strMax
  split
  · exact Or.inr rfl
  · exact Or.inl rfl

theorem foldl_strMax_mem (m : String) (ms : List String) :
    ms.foldl strMax m ∈ m :: ms := by
  induction ms generalizing m with
  | nil => simp
  | cons b bs ih =>
    simp only [List.foldl_cons]
    rcases List.mem_cons.mp (ih (strMax m b)) with h | h
    · rcases strMax_cases m b with e | e <;> rw [h, e] <;> simp
    · simp [List.mem_cons_of_mem, h]

theorem le_foldl_strMax_self (m : String) (ms : List String) :
    m ≤ ms.foldl strMax m := by
  induction ms generalizing m with
  | nil => exact le_refl m
  | cons b bs ih =>
    simp only [List.foldl_cons]
    exact le_trans (strMax_le_left m b) (ih (strMax m b))

theorem le_foldl_strMax {x m : String} {ms : List String}
    (hx : x ∈ m :: ms) : x ≤ ms.foldl strMax m := by
  induction ms generalizing m with
  | nil => simp_all
  | cons b bs ih =>
    simp only [List.foldl_cons]
    rcases List.mem_cons.mp hx with h | hx'
    · cases h
      exact le_trans (strMax_le_left _ b) (le_foldl_strMax_self _ bs)
    · rcases List.mem_cons.mp hx' with h | hx''
      · cases h
        exact le_trans (strMax_le_right m _) (le_foldl_strMax_self _ bs)
      · exact ih (List.mem_cons_of_mem _ hx'')

theorem latestRevision_none_iff (ns : List String) (f : String) :
    latestRevision ns f = none ↔ ns.filter (fun n => pyEndswith n f) = [] := by
  unfold latestRevision
  cases ns.filter (fun n => pyEndswith n f) <;> simp

theorem latestRevision_mem {ns : List String} {f l : String}
    (h : latestRevision ns f = some l) :
    l ∈ ns ∧ pyEndswith l f = true := by
  unfold latestRevision at h
  rcases he : ns.filter (fun n => pyEndswith n f) with _ | ⟨m, ms⟩
  · rw [he] at h; exact absurd h (by simp)
  · rw [he] at h
    simp only [Option.some.injEq] at h
    have : l ∈ m :: ms := h ▸ foldl_strMax_mem m ms
    rw [← he] at this
    have := List.mem_filter.mp this
    exact ⟨this.1, by simpa using this.2⟩

theorem latestRevision_ge {ns : List String} {f l : String}
    (h : latestRevision ns f = some l) :
    ∀ n ∈ ns, pyEndswith n f = true → n ≤ l := by
  intro n hn hnf
  unfold latestRevision at h
  rcases he : ns.filter (fun n => pyEndswith n f) with _ | ⟨m, ms⟩
  · rw [he] at h; exact absurd h (by simp)
  · rw [he] at h
    simp only [Option.some.injEq] at h
    have hmem : n ∈ m :: ms := by
      rw [← he]
      exact List.mem_filter.mpr ⟨hn, by simpa using hnf⟩
    exact h ▸ le_foldl_strMax hmem

theorem latestRevision_eq_of_greatest {ns : List String} {f l : String}
    (hmem : l ∈ ns) (hf : pyEndswith l f = true)
    (hge : ∀ n ∈ ns, pyEndswith n f = true → n ≤ l) :
    latestRevision ns f = some l := by
  rcases he : latestRevision ns f with _ | m
  · rw [latestRevision_none_iff] at he
    have : l ∈ ns.filter (fun n => pyEndswith n f) :=
      List.mem_filter.mpr ⟨hmem, by simpa using hf⟩
    rw [he] at this
    exact absurd this (by simp)
  · have h1 := latestRevision_mem he
    have h2 := latestRevision_ge he
    have hml : m ≤ l := hge m h1.1 h1.2
    have hlm : l ≤ m := h2 l hmem hf
    rw [le_antisymm hlm hml]

/-! ### `nextRevision` on well-formed directories -/

theorem latestRevision_filter_eq (ns : List String) (f : String) :
    latestRevision (ns.filter (fun n => pyEndswith n f)) f = latestRevision ns f := by
  unfold latestRevision
  rw [List.filter_filter]
  simp

theorem nextRevision_of_no_match {ns : List String} {f : String}
    (h : ns.filter (fun n => pyEndswith n f) = []) :
    nextRevision ns f = some ("0001_" ++ f) := by
  unfold nextRevision
  rw [(latestRevision_none_iff ns f).mpr h]

/-- On a well-formed directory with at least one revision, the latest
revision is the one with the numerically greatest 4-digit number `v`,
every match has a number at most `v`, and the next revision is
`str4 (v+1) f`. -/
theorem nextRevision_of_wf {ns : List String} {f l : String}
    (hwf : wfNames ns f) (hl : latestRevision ns f = some l) :
    ∃ v, v ≤ 9998 ∧ l = str4 v f ∧
      (∀ n ∈ ns, pyEndswith n f = true → ∃ w, w ≤ v ∧ n = str4 w f) ∧
      nextRevision ns f = some (str4 (v + 1) f) := by
  obtain ⟨hmem, hmatch⟩ := latestRevision_mem hl
  obtain ⟨v, hv, rfl⟩ := hwf l hmem hmatch
  refine ⟨v, hv, rfl, ?_, ?_⟩
  · intro n hn hnf
    obtain ⟨w, hw, rfl⟩ := hwf n hn hnf
    refine ⟨w, ?_, rfl⟩
    by_contra hcon
    have hvw : v < w := by omega
    have := str4_lt hvw (by omega) f
    exact absurd (latestRevision_ge hl _ hn hnf) (not_le.mpr this)
  · unfold nextRevision
    rw [hl]
    simp only [pyTake4_str4, pyDrop4_str4, pyInt?_pad4c (show v ≤ 9999 by omega),
      Option.some.injEq]
    rw [← String.append_assoc]
    exact pyFormat04_append (v + 1) (by omega) f

/-- On a well-formed directory, `next_revision` succeeds, names a
revision file strictly greater (lexicographically) than every existing
match, and in particular a file name not present in the directory. -/
theorem nextRevision_fresh {ns : List String} {f : String} (hwf : wfNames ns f) :
    ∃ name v, nextRevision ns f = some name ∧ name = str4 v f ∧
      1 ≤ v ∧ v ≤ 9999 ∧
      (∀ n ∈ ns, pyEndswith n f = true → n < name) ∧ name ∉ ns := by
  rcases hl : latestRevision ns f with _ | l
  · have hempty := (latestRevision_none_iff ns f).mp hl
    refine ⟨"0001_" ++ f, 1, nextRevision_of_no_match hempty, (str4_one f).symm, le_refl 1,
      by omega, ?_, ?_⟩
    · intro n hn hnf
      have := List.filter_eq_nil_iff.mp hempty n hn
      simp [hnf] at this
    · intro hmem
      have : ("0001_" ++ f) ∈ ns.filter (fun n => pyEndswith n f) :=
        List.mem_filter.mpr ⟨hmem, by simpa using pyEndswith_append "0001_" f⟩
      rw [hempty] at this
      exact absurd this (by simp)
  · obtain ⟨v, hv, rfl, hall, hnext⟩ := nextRevision_of_wf hwf hl
    refine ⟨str4 (v + 1) f, v + 1, hnext, rfl, by omega, by omega, ?_, ?_⟩
    · intro n hn hnf
      obtain ⟨w, hw, rfl⟩ := hall n hn hnf
      exact str4_lt (by omega) (by omega) f
    · intro hmem
      obtain ⟨w, hw, heq⟩ := hall _ hmem (pyEndswith_str4 (v + 1) f)
      have := str4_inj (by omega) (by omega) f heq
      omega

/-- Appending a file name strictly greater than every existing match
makes it the latest revision. -/
theorem latestRevision_append_gt {ns : List String} {f name : String}
    (hmatch : pyEndswith name f = true)
    (hgt : ∀ n ∈ ns, pyEndswith n f = true → n < name) :
    latestRevision (ns ++ [name]) f = some name := by
  refine latestRevision_eq_of_greatest (by simp) hmatch ?_
  intro n hn hnf
  rcases List.mem_append.mp hn with h | h
  · exact le_of_lt (hgt n h hnf)
  · simp only [List.mem_singleton] at h
    exact h ▸ le_refl name

/-! ### `List.lookup` helpers -/

theorem mem_keys_of_lookup {β : Type} :
    ∀ {entries : List (String × β)} {a : String} {b : β},
      entries.lookup a = some b → a ∈ entries.map Prod.fst := by
  intro entries
  induction entries with
  | nil => intro a b h; simp [List.lookup] at h
  | cons e es ih =>
    intro a b h
    simp only [List.lookup] at h
    rcases he : (a == e.1) with _ | _
    · rw [he] at h
      exact List.mem_cons_of_mem _ (ih h)
    · simp [beq_iff_eq.mp he]

theorem lookup_append_self {β : Type} {entries : List (String × β)} {a : String}
    (h : a ∉ entries.map Prod.fst) (b : β) :
    (entries ++ [(a, b)]).lookup a = some b := by
  induction entries with
  | nil => simp [List.lookup]
  | cons e es ih =>
    simp only [List.map_cons, List.mem_cons] at h
    push_neg at h
    simp only [List.cons_append, List.lookup]
    rw [show (a == e.1) = false from beq_eq_false_iff_ne.mpr h.1]
    exact ih h.2

/-! ### `writeBF` and `readBF` composition -/

theorem names_mk (d : Bool) (entries : List (String × List JRec)) :
    (World.mk d entries).names = entries.map Prod.fst := rfl

theorem writeBF_of_fresh {w : World} {f name : String} (data : List PyRec)
    (hd : w.dirExists = true) (hnext : nextRevision w.names f = some name)
    (hfresh : name ∉ w.names) :
    writeBF w f data = some ⟨true, w.entries ++ [(name, data.map serializeRec)]⟩ := by
  unfold writeBF
  rw [hd, hnext]
  simp only [if_true]
  rw [show w.names.contains name = false by simpa using hfresh]
  simp

/-! ### `fromisoformat` inverts `isoformat` on valid datetimes -/

theorem pyFromIso_pyIsoformat {d : PyDatetime} (h : validDT d = true) :
    pyFromIso (pyIsoformat d) = some d := by
  obtain ⟨y, mo, da, hh, mi, se, us⟩ := d
  have hb := h
  simp only [validDT, Bool.and_eq_true, decide_eq_true_eq] at hb
  obtain ⟨⟨⟨⟨⟨⟨⟨⟨⟨hy1, hy2⟩, hmo1⟩, hmo2⟩, hda1⟩, hda2⟩, hhh⟩, hmi⟩, hse⟩, hus⟩ := hb
  have h10 : ∀ n : Nat, n % 10 < 10 := fun n => Nat.mod_lt _ (by norm_num)
  have ey : 1000 * (y / 1000 % 10) + 100 * (y / 100 % 10) + 10 * (y / 10 % 10) + y % 10 = y := by
    omega
  have emo : 10 * (mo / 10 % 10) + mo % 10 = mo := by omega
  have eda : 10 * (da / 10 % 10) + da % 10 = da := by
    have : da ≤ 31 := le_trans hda2 (by unfold daysInMonth; split <;> split <;> omega)
    omega
  have ehh : 10 * (hh / 10 % 10) + hh % 10 = hh := by omega
  have emi : 10 * (mi / 10 % 10) + mi % 10 = mi := by omega
  have ese : 10 * (se / 10 % 10) + se % 10 = se := by omega
  by_cases hz : us = 0
  · subst hz
    unfold pyIsoformat pyFromIso
    simp only [pad4c, pad2c, if_pos rfl, List.cons_append, List.nil_append,
      List.append_nil]
    simp only [isDig_digitChar (h10 _), Bool.and_self, Bool.and_true, Bool.true_and,
      if_true, parseTimeChars, digVal_digitChar (h10 _), ey, emo, eda, ehh, emi, ese]
    rw [if_pos h]
  · unfold pyIsoformat pyFromIso
    simp only [pad4c, pad2c, pad6c, if_neg hz, List.cons_append, List.nil_append,
      List.append_nil]
    have eus : 100000 * (us / 100000 % 10) + 10000 * (us / 10000 % 10) +
        1000 * (us / 1000 % 10) + 100 * (us / 100 % 10) + 10 * (us / 10 % 10) +
        us % 10 = us := by omega
    simp only [isDig_digitChar (h10 _), Bool.and_self, Bool.and_true, Bool.true_and,
      if_true, parseTimeChars, digVal_digitChar (h10 _), ey, emo, eda, ehh, emi, ese, eus]
    rw [if_pos h]

/-! ### Value and record round trips -/

theorem deserializeVal_serializeVal_of_safe {v : PyVal} (h : SafeVal v) :
    deserializeVal (serializeVal v) = v := by
  cases v with
  | pnull => rfl
  | pbool b => rfl
  | pint n => rfl
  | pstr s =>
    simp only [SafeVal] at h
    simp [serializeVal, deserializeVal, h]
  | pdt d =>
    simp only [SafeVal] at h
    simp [serializeVal, deserializeVal, pyFromIso_pyIsoformat h]
  | pdate y m dd => exact absurd h (by simp [SafeVal])
  | pother => exact absurd h (by simp [SafeVal])

theorem deserializeRec_serializeRec {r : PyRec} (h : ∀ p ∈ r, SafeVal p.2) :
    deserializeRec (serializeRec r) = r := by
  induction r with
  | nil => rfl
  | cons p ps ih =>
    simp only [serializeRec, deserializeRec, List.map_cons, List.cons.injEq] at *
    constructor
    · rw [deserializeVal_serializeVal_of_safe (h p (List.mem_cons_self _ _))]
    · exact ih (fun q hq => h q (List.mem_cons_of_mem _ hq))

/-! ### Write followed by read -/

/-- On a well-formed existing directory, one `write` succeeds and the
`read` right after it returns exactly the just-written records, each
passed through JSON serialization and the datetime hooks. -/
theorem writeBF_readBF {w : World} {f : String} (data : List PyRec)
    (hd : w.dirExists = true) (hwf : wfNames w.names f) :
    ∃ w', writeBF w f data = some w' ∧
      readBF w' f = some (data.map (fun r => deserializeRec (serializeRec r))) := by
  obtain ⟨name, v, hnext, hnv, _h1, _h9, hgt, hfresh⟩ := nextRevision_fresh hwf
  refine ⟨_, writeBF_of_fresh data hd hnext hfresh, ?_⟩
  have hmatch : pyEndswith name f = true := hnv ▸ pyEndswith_str4 v f
  have hnames : (World.mk true (w.entries ++ [(name, data.map serializeRec)])).names
      = w.names ++ [name] := by
    simp [World.names]
  unfold readBF
  simp only [if_true]
  rw [hnames]
  unfold latestFilePath
  rw [latestRevision_append_gt hmatch hgt]
  have hlook := lookup_append_self (β := List JRec) hfresh (data.map serializeRec)
  simp only [hlook, List.map_map]
  simp [Function.comp]

/-! ### Sequences of writes and revision numbering -/

theorem writeSeq_append (f : String) (w : World) (ds : List (List PyRec)) (d : List PyRec) :
    writeSeq f w (ds ++ [d]) = (writeSeq f w ds).bind (fun w' => writeBF w' f d) := by
  induction ds generalizing w with
  | nil =>
    simp only [List.nil_append, writeSeq, Option.bind]
    cases writeBF w f d <;> rfl
  | cons e es ih =>
    simp only [List.cons_append, writeSeq]
    cases writeBF w f e <;> simp [ih]

theorem revList_succ (f : String) (k : Nat) :
    revList f (k + 1) = revList f k ++ [str4 (k + 1) f] := by
  unfold revList
  rw [List.range_succ, List.map_append]
  rfl

theorem mem_revList {n : String} {f : String} {k : Nat} :
    n ∈ revList f k ↔ ∃ i, 1 ≤ i ∧ i ≤ k ∧ n = str4 i f := by
  unfold revList
  simp only [List.mem_map, List.mem_range]
  constructor
  · rintro ⟨i, hi, rfl⟩
    exact ⟨i + 1, by omega, by omega, rfl⟩
  · rintro ⟨i, h1, h2, rfl⟩
    exact ⟨i - 1, by omega, by rw [Nat.sub_add_cancel h1]⟩

theorem revList_wf (f : String) (k : Nat) (hk : k ≤ 9998) : wfNames (revList f k) f := by
  intro n hn _
  obtain ⟨i, h1, h2, rfl⟩ := mem_revList.mp hn
  exact ⟨i, by omega, rfl⟩

theorem revList_latest (f : String) (k : Nat) (h1 : 1 ≤ k) (h9 : k ≤ 9999) :
    latestRevision (revList f k) f = some (str4 k f) := by
  refine latestRevision_eq_of_greatest (mem_revList.mpr ⟨k, h1, le_refl k, rfl⟩)
    (pyEndswith_str4 k f) ?_
  intro n hn _
  obtain ⟨i, hi1, hi2, rfl⟩ := mem_revList.mp hn
  rcases Nat.lt_or_ge i k with hik | hik
  · exact le_of_lt (str4_lt hik h9 f)
  · have : i = k := by omega
    exact this ▸ le_refl _

theorem nextRevision_revList (f : String) (k : Nat) (hk : k ≤ 9998) :
    nextRevision (revList f k) f = some (str4 (k + 1) f) := by
  rcases Nat.eq_zero_or_pos k with rfl | hpos
  · rw [nextRevision_of_no_match (by rfl), str4_one]
  · obtain ⟨v, _, heq, _, hnext⟩ :=
      nextRevision_of_wf (revList_wf f k hk) (revList_latest f k hpos (by omega))
    have hvk : k = v := str4_inj (by omega) (by omega) f heq
    rw [hnext, ← hvk]

theorem str4_not_mem_revList {f : String} {k : Nat} (hk : k ≤ 9998) :
    str4 (k + 1) f ∉ revList f k := by
  intro hmem
  obtain ⟨i, h1, h2, heq⟩ := mem_revList.mp hmem
  have := str4_inj (by omega) (by omega) f heq
  omega

/-- Names after `N ≤ 9999` writes, each to the next revision, starting
from an existing empty backup directory: exactly
`"0001_<f>", …, "<N padded>_<f>"` in write order. -/
theorem writeSeq_names (f : String) (datas : List (List PyRec))
    (hlen : datas.length ≤ 9999) :
    ∃ w', writeSeq f ⟨true, []⟩ datas = some w' ∧ w'.dirExists = true ∧
      w'.names = revList f datas.length := by
  induction datas using List.reverseRecOn with
  | nil => exact ⟨⟨true, []⟩, rfl, rfl, rfl⟩
  | append_singleton ds d ih =>
    rw [List.length_append, List.length_singleton] at hlen
    obtain ⟨w', hw', hd', hn'⟩ := ih (by omega)
    rw [writeSeq_append, hw']
    have hnext : nextRevision w'.names f = some (str4 (ds.length + 1) f) := by
      rw [hn']
      exact nextRevision_revList f ds.length (by omega)
    have hfresh : str4 (ds.length + 1) f ∉ w'.names := by
      rw [hn']
      exact str4_not_mem_revList (by omega)
    refine ⟨⟨true, w'.entries ++ [(str4 (ds.length + 1) f, d.map serializeRec)]⟩, ?_, rfl, ?_⟩
    · rw [Option.some_bind]
      exact writeBF_of_fresh d hd' hnext hfresh
    · simp only [World.names, List.map_append, List.map_cons, List.map_nil,
        List.length_append, List.length_singleton, revList_succ]
      rw [show w'.entries.map Prod.fst = w'.names from rfl, hn']

/-! ### Revision-number overflow at the 10000th write -/

theorem nextRevision_revList_9999 (f : String) :
    nextRevision (revList f 9999) f = some ("10000" ++ ("_" ++ f)) := by
  unfold nextRevision
  rw [revList_latest f 9999 (by omega) (by omega)]
  simp only [pyTake4_str4, pyDrop4_str4, pyInt?_pad4c (le_refl 9999)]
  rw [show pyFormat04 (9999 + 1) = "10000" from rfl]

theorem name10000_not_mem (f : String) :
    ("10000" ++ ("_" ++ f)) ∉ revList f 9999 := by
  intro hmem
  obtain ⟨i, _, _, heq⟩ := mem_revList.mp hmem
  have hlen := congrArg (fun s => s.data.length) heq
  simp only [String.data_append, str4_data, List.length_append, pad4c,
    List.length_cons, List.length_nil] at hlen
  omega

theorem name10000_lt (f : String) : ("10000" ++ ("_" ++ f)) < str4 9999 f := by
  rw [strLt_iff, str4_data, String.data_append, String.data_append]
  rw [show ("10000" : String).data = ['1', '0', '0', '0', '0'] from rfl,
    show ("_" : String).data = ['_'] from rfl,
    show pad4c 9999 = ['9', '9', '9', '9'] from rfl]
  simp only [List.cons_append, List.nil_append]
  exact List.Lex.rel (by decide)

theorem name10000_matches (f : String) :
    pyEndswith ("10000" ++ ("_" ++ f)) f = true := by
  rw [show ("10000" ++ ("_" ++ f)) = ("10000" ++ "_") ++ f by
    rw [String.append_assoc]]
  exact pyEndswith_append _ f

theorem latestRevision_after_overflow (f : String) :
    latestRevision (revList f 9999 ++ ["10000" ++ ("_" ++ f)]) f = some (str4 9999 f) := by
  refine latestRevision_eq_of_greatest
    (List.mem_append.mpr (Or.inl (mem_revList.mpr ⟨9999, by omega, le_refl _, rfl⟩)))
    (pyEndswith_str4 9999 f) ?_
  intro n hn _
  rcases List.mem_append.mp hn with h | h
  · obtain ⟨i, h1, h2, rfl⟩ := mem_revList.mp h
    rcases Nat.lt_or_ge i 9999 with hik | hik
    · exact le_of_lt (str4_lt hik (le_refl _) f)
    · have : i = 9999 := by omega
      exact this ▸ le_refl _
  · simp only [List.mem_singleton] at h
    subst h
    exact le_of_lt (name10000_lt f)

theorem nextRevision_after_overflow (f : String) :
    nextRevision (revList f 9999 ++ ["10000" ++ ("_" ++ f)]) f =
      some ("10000" ++ ("_" ++ f)) := by
  unfold nextRevision
  rw [latestRevision_after_overflow]
  simp only [pyTake4_str4, pyDrop4_str4, pyInt?_pad4c (le_refl 9999)]
  rw [show pyFormat04 (9999 + 1) = "10000" from rfl]

theorem map_fst_overwrite {β : Type} (es : List (String × β)) (name : String) (c : β) :
    (es.map (fun e => if e.1 = name then (e.1, c) else e)).map Prod.fst =
      es.map Prod.fst := by
  induction es with
  | nil => rfl
  | cons e es ih =>
    simp only [List.map_cons]
    split <;> simp [ih]

/-- A write whose target name already exists truncates that file in
place: no new directory entry appears. -/
theorem writeBF_of_stale {w : World} {f name : String} (data : List PyRec)
    (hd : w.dirExists = true) (hnext : nextRevision w.names f = some name)
    (hmem : name ∈ w.names) :
    ∃ w', writeBF w f data = some w' ∧ w'.dirExists = true ∧ w'.names = w.names := by
  unfold writeBF
  rw [hd, hnext]
  simp only [if_true]
  rw [show w.names.contains name = true by simpa using hmem]
  simp only [if_true]
  refine ⟨_, rfl, rfl, ?_⟩
  show (w.entries.map _).map Prod.fst = w.entries.map Prod.fst
  exact map_fst_overwrite w.entries name (data.map serializeRec)

theorem writeSeq_names_10000 (f : String) (datas : List (List PyRec))
    (hlen : datas.length = 10000) :
    ∃ w', writeSeq f ⟨true, []⟩ datas = some w' ∧ w'.dirExists = true ∧
      w'.names = revList f 9999 ++ ["10000" ++ ("_" ++ f)] := by
  rcases List.eq_nil_or_concat datas with rfl | ⟨ds, d, rfl⟩
  · simp at hlen
  · rw [List.concat_eq_append] at hlen ⊢
    rw [List.length_append, List.length_singleton] at hlen
    obtain ⟨w', hw', hd', hn'⟩ := writeSeq_names f ds (by omega)
    rw [writeSeq_append, hw', Option.some_bind]
    have h9999 : ds.length = 9999 := by omega
    rw [h9999] at hn'
    have hnext : nextRevision w'.names f = some ("10000" ++ ("_" ++ f)) := by
      rw [hn']
      exact nextRevision_revList_9999 f
    have hfresh : ("10000" ++ ("_" ++ f)) ∉ w'.names := by
      rw [hn']
      exact name10000_not_mem f
    rw [writeBF_of_fresh d hd' hnext hfresh]
    refine ⟨_, rfl, rfl, ?_⟩
    simp only [World.names, List.map_append, List.map_cons, List.map_nil]
    rw [show w'.entries.map Prod.fst = w'.names from rfl, hn']

theorem writeSeq_names_10001 (f : String) (datas : List (List PyRec))
    (hlen : datas.length = 10001) :
    ∃ w', writeSeq f ⟨true, []⟩ datas = some w' ∧
      w'.names = revList f 9999 ++ ["10000" ++ ("_" ++ f)] := by
  rcases List.eq_nil_or_concat datas with rfl | ⟨ds, d, rfl⟩
  · simp at hlen
  · rw [List.concat_eq_append] at hlen ⊢
    rw [List.length_append, List.length_singleton] at hlen
    obtain ⟨w', hw', hd', hn'⟩ := writeSeq_names_10000 f ds (by omega)
    rw [writeSeq_append, hw', Option.some_bind]
    have hnext : nextRevision w'.names f = some ("10000" ++ ("_" ++ f)) := by
      rw [hn']
      exact nextRevision_after_overflow f
    have hmem : ("10000" ++ ("_" ++ f)) ∈ w'.names := by
      rw [hn']
      exact List.mem_append.mpr (Or.inr (List.mem_singleton.mpr rfl))
    obtain ⟨w'', hw'', _, hn''⟩ := writeBF_of_stale d hd' hnext hmem
    rw [hw'']
    exact ⟨w'', rfl, by rw [hn'', hn']⟩

theorem revList_length (f : String) (k : Nat) : (revList f k).length = k := by
  unfold revList
  rw [List.length_map, List.length_range]

/-! ## Claim theorems -/

/-- C10: a record value that is neither JSON-native nor a
datetime/date (here `PyVal.pother`) is serialized by the `default` hook
of `BackupFile.write` as JSON `null`: the write succeeds without
raising, and the snapshot file stores `null` for that field while other
fields are unaffected. -/
theorem c10_unsupported_null :
    serializeVal PyVal.pother = JVal.jnull ∧
    writeBF ⟨true, []⟩ "x.json" [[("name", PyVal.pstr "m_app"), ("obj", PyVal.pother)]] =
      some ⟨true, [("0001_x.json", [[("name", JVal.jstr "m_app"), ("obj", JVal.jnull)]])]⟩ := by
  exact ⟨rfl, by decide⟩

/-- C9 (counterexample): the claim says a missing backup directory is
never an error and that `BackupFile.write` creates the directory tree if
absent.  In the code the tree is created in `BackupFile.__init__`
(backup.py line 25), not in `write`: on a store whose directory is
absent, `write` itself fails (its `os.listdir` raises), creating
nothing, and `read` fails too. -/
theorem c9_counterexample :
    writeBF ⟨false, []⟩ "backup_migrations_table.json" [] = none ∧
    readBF ⟨false, []⟩ "backup_migrations_table.json" = none := by
  exact ⟨rfl, rfl⟩

/-- C9 (amended): the backup directory tree is created eagerly at
`BackupFile` construction (`mkdir(parents=True, exist_ok=True)`), which
never fails; since every operation goes through a constructed
`BackupFile`, a missing directory is never an error, and the first
write after constructing over a missing directory succeeds and creates
`"0001_<name>"`. -/
theorem c9_dir_creation_amended (w : World) (f : String) (data : List PyRec) :
    (initBF w).dirExists = true ∧
    (w.dirExists = false →
      writeBF (initBF w) f data = some ⟨true, [("0001_" ++ f, data.map serializeRec)]⟩) := by
  constructor
  · unfold initBF
    split <;> simp_all
  · intro h
    unfold initBF
    rw [h]
    simp only [Bool.false_eq_true, if_false]
    have hnext : nextRevision (World.mk true []).names f = some ("0001_" ++ f) :=
      nextRevision_of_no_match rfl
    have := writeBF_of_fresh (w := ⟨true, []⟩) data rfl hnext (by simp [World.names])
    simpa using this

/-- C9 witness: constructing over a missing directory, then writing. -/
theorem c9_dir_creation_amended_witness :
    (initBF ⟨false, []⟩).dirExists = true ∧
    writeBF (initBF ⟨false, []⟩) "x.json" [[("id", PyVal.pint 1)]] =
      some ⟨true, [("0001_" ++ "x.json", [[("id", PyVal.pint 1)]].map serializeRec)]⟩ :=
  ⟨(c9_dir_creation_amended ⟨false, []⟩ "x.json" [[("id", PyVal.pint 1)]]).1,
   (c9_dir_creation_amended ⟨false, []⟩ "x.json" [[("id", PyVal.pint 1)]]).2 rfl⟩

/-- C6: when no revision file exists for the dataset,
`latest_file_path` resolves to the not-yet-written next revision
`"0001_<name>"` and `BackupFile.read` fails with a not-found error
(`none`) instead of returning records. -/
theorem c6_read_no_revision (w : World) (f : String) (hd : w.dirExists = true)
    (hnone : w.names.filter (fun n => pyEndswith n f) = []) :
    latestFilePath w.names f = nextRevision w.names f ∧
    nextRevision w.names f = some ("0001_" ++ f) ∧
    readBF w f = none := by
  have hlr : latestRevision w.names f = none := (latestRevision_none_iff _ _).mpr hnone
  refine ⟨?_, nextRevision_of_no_match hnone, ?_⟩
  · unfold latestFilePath
    rw [hlr]
  · unfold readBF
    rw [hd]
    simp only [if_true]
    unfold latestFilePath
    rw [hlr, nextRevision_of_no_match hnone]
    cases hlook : w.entries.lookup ("0001_" ++ f) with
    | none => simp [hlook]
    | some c =>
      exfalso
      have hmem := mem_keys_of_lookup hlook
      have : ("0001_" ++ f) ∈ w.names.filter (fun n => pyEndswith n f) :=
        List.mem_filter.mpr ⟨hmem, by simpa using pyEndswith_append "0001_" f⟩
      rw [hnone] at this
      exact absurd this (by simp)

/-- C6 witness: a store whose directory exists but is empty. -/
theorem c6_read_no_revision_witness :
    latestFilePath (World.mk true []).names "backup_migrations_table.json" =
      nextRevision (World.mk true []).names "backup_migrations_table.json" ∧
    nextRevision (World.mk true []).names "backup_migrations_table.json" =
      some ("0001_" ++ "backup_migrations_table.json") ∧
    readBF ⟨true, []⟩ "backup_migrations_table.json" = none :=
  c6_read_no_revision ⟨true, []⟩ "backup_migrations_table.json" rfl rfl

/-- C2: the restore operation (read snapshot, delete all rows,
bulk-insert reconstructed rows, under one transaction) is all or
nothing: if any step fails the table keeps its pre-restore row set, and
if it completes the table holds exactly the snapshot's rows — the
delete and the insert never take effect separately. -/
theorem c2_restore_atomic (w : World) (f : String) (table : List Row)
    (failAt : Option Nat) :
    ((restoreOp w f table failAt).2 = false → (restoreOp w f table failAt).1 = table) ∧
    ((restoreOp w f table failAt).2 = true →
      ∃ recs, readBF w f = some recs ∧ (restoreOp w f table failAt).1 = recs) := by
  unfold restoreOp
  cases hr : readBF w f with
  | none => simp
  | some recs =>
    rcases failAt with _ | n
    · refine ⟨by simp [atomicRun, runOps, applyOp], fun _ => ⟨recs, rfl, ?_⟩⟩
      simp [atomicRun, runOps, applyOp]
    · rcases n with _ | n
      · simp [atomicRun, runOps, applyOp]
      · rcases n with _ | n
        · simp [atomicRun, runOps, applyOp]
        · refine ⟨by simp [atomicRun, runOps, applyOp], fun _ => ⟨recs, rfl, ?_⟩⟩
          simp [atomicRun, runOps, applyOp]

/-- C2 witness: a failure injected during the bulk-insert leaves the
pre-existing row intact. -/
theorem c2_restore_atomic_witness :
    (restoreOp ⟨true, [("0001_x.json", [[("id", JVal.jint 3)]])]⟩ "x.json"
      [[("id", PyVal.pint 9)]] (some 1)).1 = [[("id", PyVal.pint 9)]] :=
  (c2_restore_atomic ⟨true, [("0001_x.json", [[("id", JVal.jint 3)]])]⟩ "x.json"
    [[("id", PyVal.pint 9)]] (some 1)).1 (by decide)

/-- C4 (counterexample): the claim says a write's target path is never
an existing file, for every directory state.  In the directory
`["9999_x.json", "10000_x.json"]` (reachable by 10001 consecutive
writes) the lexicographically greatest match is `"9999_x.json"`, so the
next revision is `"10000_x.json"` — an existing file: the write
truncates it in place and creates no new file. -/
theorem c4_counterexample :
    nextRevision ["9999_x.json", "10000_x.json"] "x.json" = some "10000_x.json" ∧
    "10000_x.json" ∈ ["9999_x.json", "10000_x.json"] ∧
    (writeBF ⟨true, [("9999_x.json", []), ("10000_x.json", [])]⟩ "x.json"
        [[("id", PyVal.pint 1)]]).map (fun w' => w'.names) =
      some ["9999_x.json", "10000_x.json"] := by
  exact ⟨by decide, by decide, by decide⟩

/-- C4 (amended): on a directory whose matching entries are all
4-digit revision files with numbers at most 9998, one write creates
exactly one new file and never overwrites: the target path is not the
path of any file already present. -/
theorem c4_write_fresh_amended (w : World) (f : String) (data : List PyRec)
    (hd : w.dirExists = true) (hwf : wfNames w.names f) :
    ∃ name, nextRevision w.names f = some name ∧ name ∉ w.names ∧
      writeBF w f data = some ⟨true, w.entries ++ [(name, data.map serializeRec)]⟩ := by
  obtain ⟨name, v, hnext, _, _, _, _, hfresh⟩ := nextRevision_fresh hwf
  exact ⟨name, hnext, hfresh, writeBF_of_fresh data hd hnext hfresh⟩

/-- C4 witness: a directory holding revision 1. -/
theorem c4_write_fresh_amended_witness :
    ∃ name,
      nextRevision (World.mk true [("0001_x.json", [])]).names "x.json" = some name ∧
      name ∉ (World.mk true [("0001_x.json", [])]).names ∧
      writeBF ⟨true, [("0001_x.json", [])]⟩ "x.json" [] =
        some ⟨true, [("0001_x.json", [])] ++ [(name, ([] : List PyRec).map serializeRec)]⟩ :=
  c4_write_fresh_amended ⟨true, [("0001_x.json", [])]⟩ "x.json" [] rfl
    (fun n hn _ => by
      simp only [World.names, List.map_cons, List.map_nil, List.mem_singleton] at hn
      subst hn
      exact ⟨1, by omega, by decide⟩)

/-- C5 (counterexample): the claim says the numeric head of the
lexicographically greatest match is incremented and re-zero-padded to
the same width.  With latest revision `"9999_x.json"` the code produces
`"10000_x.json"`: the head widens to 5 digits instead of keeping
width 4 (the resulting name is one character longer). -/
theorem c5_counterexample :
    nextRevision ["9999_x.json"] "x.json" = some "10000_x.json" ∧
    ("10000_x.json" : String).length ≠ ("9999_x.json" : String).length := by
  exact ⟨by decide, by decide⟩

/-- C5 (amended): the next-revision computation considers exactly the
entries ending with the dataset file name; with no match the next
revision is `"0001_<name>"`; otherwise, on a well-formed directory, it
takes the lexicographically greatest match `str4 v f`, increments `v`,
re-zero-pads it to width 4 (which fits, since one increment of a number
at most 9998 stays below 10000; beyond that Python's `%04d` widens),
and preserves the suffix. -/
theorem c5_next_revision_amended (ns : List String) (f : String) :
    nextRevision (ns.filter (fun n => pyEndswith n f)) f = nextRevision ns f ∧
    (ns.filter (fun n => pyEndswith n f) = [] →
      nextRevision ns f = some ("0001_" ++ f)) ∧
    (wfNames ns f → ∀ l, latestRevision ns f = some l →
      ∃ v, v ≤ 9998 ∧ l = str4 v f ∧
        (∀ n ∈ ns, pyEndswith n f = true → n ≤ l) ∧
        nextRevision ns f = some (str4 (v + 1) f) ∧
        (str4 (v + 1) f).length = l.length ∧
        pyEndswith (str4 (v + 1) f) f = true) := by
  refine ⟨?_, nextRevision_of_no_match, ?_⟩
  · unfold nextRevision
    rw [latestRevision_filter_eq]
  · intro hwf l hl
    obtain ⟨v, hv, rfl, hall, hnext⟩ := nextRevision_of_wf hwf hl
    refine ⟨v, hv, rfl, latestRevision_ge hl, hnext, ?_, pyEndswith_str4 (v + 1) f⟩
    show (str4 (v + 1) f).data.length = (str4 v f).data.length
    rw [str4_data, str4_data]
    simp [pad4c]

/-- C5 witness: a directory holding revision 1. -/
theorem c5_next_revision_amended_witness :
    ∃ v, v ≤ 9998 ∧ ("0001_x.json" : String) = str4 v "x.json" ∧
      (∀ n ∈ ["0001_x.json"], pyEndswith n "x.json" = true → n ≤ "0001_x.json") ∧
      nextRevision ["0001_x.json"] "x.json" = some (str4 (v + 1) "x.json") ∧
      (str4 (v + 1) "x.json").length = ("0001_x.json" : String).length ∧
      pyEndswith (str4 (v + 1) "x.json") "x.json" = true :=
  (c5_next_revision_amended ["0001_x.json"] "x.json").2.2
    (fun n hn _ => by
      simp only [List.mem_singleton] at hn
      subst hn
      exact ⟨1, by omega, by decide⟩)
    "0001_x.json" (by decide)

/-- C7: `BackupFile.read` parses the file whose name is the
lexicographically greatest among those ending with the dataset's
suffix: if `l` is a matching name at least as great as every match and
holds content `c`, reading returns `c`'s records (after the datetime
hook). -/
theorem c7_read_latest (w : World) (f l : String) (c : List JRec)
    (hd : w.dirExists = true)
    (hmem : l ∈ w.names) (hmatch : pyEndswith l f = true)
    (hge : ∀ n ∈ w.names, pyEndswith n f = true → n ≤ l)
    (hlook : w.entries.lookup l = some c) :
    readBF w f = some (c.map deserializeRec) := by
  have hlr := latestRevision_eq_of_greatest hmem hmatch hge
  unfold readBF
  rw [hd]
  simp only [if_true]
  unfold latestFilePath
  rw [hlr]
  simp only [hlook]

/-- C7 witness: after two writes produced `0001_x.json` and
`0002_x.json`, reading returns the contents of `0002_x.json`. -/
theorem c7_read_latest_witness :
    readBF ⟨true, [("0001_x.json", [[("id", JVal.jint 1)]]),
                   ("0002_x.json", [[("id", JVal.jint 2)]])]⟩ "x.json" =
      some ([[("id", JVal.jint 2)]].map deserializeRec) :=
  c7_read_latest
    ⟨true, [("0001_x.json", [[("id", JVal.jint 1)]]),
            ("0002_x.json", [[("id", JVal.jint 2)]])]⟩
    "x.json" "0002_x.json" [[("id", JVal.jint 2)]] rfl (by decide) (by decide)
    (fun n hn hnf => by
      simp only [World.names, List.map_cons, List.map_nil, List.mem_cons,
        List.mem_singleton, List.not_mem_nil, or_false] at hn
      rcases hn with rfl | rfl
      · rw [show ("0001_x.json" : String) = str4 1 "x.json" from by decide,
          show ("0002_x.json" : String) = str4 2 "x.json" from by decide]
        exact le_of_lt (str4_lt (by omega) (by omega) "x.json")
      · exact le_refl _)
    (by decide)

/-- C8: a field written as a plain string is returned by
`BackupFile.read` as a datetime when the string parses as ISO-8601,
and unchanged when it does not. -/
theorem c8_iso_string_conversion (w : World) (f key s : String)
    (hd : w.dirExists = true) (hwf : wfNames w.names f) :
    ∃ w', writeBF w f [[(key, PyVal.pstr s)]] = some w' ∧
      readBF w' f = some [[(key,
        match pyFromIso s with
        | some d => PyVal.pdt d
        | none => PyVal.pstr s)]] := by
  obtain ⟨w', hw, hr⟩ := writeBF_readBF [[(key, PyVal.pstr s)]] hd hwf
  refine ⟨w', hw, ?_⟩
  rw [hr]
  rfl

/-- C8 witness: `"2024-01-01T00:00:00"` written as a plain string is
read back converted to a datetime; `"pending"` is read back as the same
string. -/
theorem c8_iso_string_conversion_witness :
    (∃ w', writeBF ⟨true, []⟩ "x.json" [[("applied", PyVal.pstr "2024-01-01T00:00:00")]] =
        some w' ∧
      readBF w' "x.json" = some [[("applied",
        match pyFromIso "2024-01-01T00:00:00" with
        | some d => PyVal.pdt d
        | none => PyVal.pstr "2024-01-01T00:00:00")]]) ∧
    (∃ w', writeBF ⟨true, []⟩ "x.json" [[("status", PyVal.pstr "pending")]] = some w' ∧
      readBF w' "x.json" = some [[("status",
        match pyFromIso "pending" with
        | some d => PyVal.pdt d
        | none => PyVal.pstr "pending")]]) ∧
    pyFromIso "2024-01-01T00:00:00" = some ⟨2024, 1, 1, 0, 0, 0, 0⟩ ∧
    pyFromIso "pending" = none :=
  ⟨c8_iso_string_conversion ⟨true, []⟩ "x.json" "applied" "2024-01-01T00:00:00" rfl
      (fun n hn _ => absurd hn (by simp [World.names])),
   c8_iso_string_conversion ⟨true, []⟩ "x.json" "status" "pending" rfl
      (fun n hn _ => absurd hn (by simp [World.names])),
   by decide, by decide⟩

/-- C1 (counterexample): the claim's round trip fails on a record
whose string field happens to parse as ISO-8601: written as the plain
string `"2024-01-01T00:00:00"`, it is read back as a datetime, so the
result differs from the input in that field's type. -/
theorem c1_counterexample :
    ((writeBF ⟨true, []⟩ "x.json" [[("applied", PyVal.pstr "2024-01-01T00:00:00")]]).bind
      (fun w' => readBF w' "x.json")) =
      some [[("applied", PyVal.pdt ⟨2024, 1, 1, 0, 0, 0, 0⟩)]] ∧
    ((writeBF ⟨true, []⟩ "x.json" [[("applied", PyVal.pstr "2024-01-01T00:00:00")]]).bind
      (fun w' => readBF w' "x.json")) ≠
      some [[("applied", PyVal.pstr "2024-01-01T00:00:00")]] := by
  exact ⟨by decide, by decide⟩

/-- C1 (amended): for records whose values are JSON-native scalars or
valid datetimes, and whose string values do not themselves parse as
ISO-8601 datetimes, `write(records)` followed by `read()` on the same
well-formed store returns records equal to the input — datetime fields
preserved exactly, sub-second precision included, and the other fields
unchanged in type and value. -/
theorem c1_roundtrip_amended (w : World) (f : String) (records : List PyRec)
    (hd : w.dirExists = true) (hwf : wfNames w.names f)
    (hsafe : ∀ r ∈ records, ∀ p ∈ r, SafeVal p.2) :
    ∃ w', writeBF w f records = some w' ∧ readBF w' f = some records := by
  obtain ⟨w', hw, hr⟩ := writeBF_readBF records hd hwf
  refine ⟨w', hw, ?_⟩
  rw [hr]
  rw [List.map_congr_left (fun r hr => deserializeRec_serializeRec (hsafe r hr))]
  simp

/-- C1 witness: a record with an int, a non-ISO string, a null, a bool
and a microsecond-precision datetime round-trips exactly. -/
theorem c1_roundtrip_amended_witness :
    ∃ w', writeBF ⟨true, []⟩ "x.json"
        [[("id", PyVal.pint 7), ("name", PyVal.pstr "app.0001_initial"),
          ("note", PyVal.pnull), ("ok", PyVal.pbool true),
          ("applied", PyVal.pdt ⟨2024, 1, 1, 12, 34, 56, 123456⟩)]] = some w' ∧
      readBF w' "x.json" = some
        [[("id", PyVal.pint 7), ("name", PyVal.pstr "app.0001_initial"),
          ("note", PyVal.pnull), ("ok", PyVal.pbool true),
          ("applied", PyVal.pdt ⟨2024, 1, 1, 12, 34, 56, 123456⟩)]] :=
  c1_roundtrip_amended ⟨true, []⟩ "x.json"
    [[("id", PyVal.pint 7), ("name", PyVal.pstr "app.0001_initial"),
      ("note", PyVal.pnull), ("ok", PyVal.pbool true),
      ("applied", PyVal.pdt ⟨2024, 1, 1, 12, 34, 56, 123456⟩)]]
    rfl (fun n hn _ => absurd hn (by simp [World.names])) (by decide)

/-- C3 (counterexample): the claim quantifies over every N, but at
N = 10001 it fails: writes 1–9999 create `0001_…`–`9999_…`, write
10000 creates `10000_…` (already 5 digits wide), and write 10001
computes `"10000_…"` again — the lexicographic maximum is still
`"9999_…"` — so it truncates the existing file and creates nothing:
10001 writes leave only 10000 files, not revisions "0001"…"10001". -/
theorem c3_counterexample :
    ∃ w', writeSeq "x.json" ⟨true, []⟩ (List.replicate 10001 []) = some w' ∧
      w'.names.length = 10000 ∧
      w'.names ≠ (List.range 10001).map (fun i => pyFormat04 (i + 1) ++ "_" ++ "x.json") := by
  obtain ⟨w', hw, hn⟩ := writeSeq_names_10001 "x.json" (List.replicate 10001 [])
    (by rw [List.length_replicate])
  refine ⟨w', hw, ?_, ?_⟩
  · rw [hn, List.length_append, revList_length]
    rfl
  · rw [hn]
    intro hcontra
    have hlen := congrArg List.length hcontra
    rw [List.length_append, revList_length, List.length_map, List.length_range] at hlen
    simp at hlen

/-- C3 (amended): for every N ≤ 9999, N consecutive writes starting
from an empty dataset directory create exactly the files
`"0001_<f>"`, `"0002_<f>"`, …, numbered in write order, each revision
number zero-padded to width 4. -/
theorem c3_revision_sequence_amended (f : String) (datas : List (List PyRec))
    (hlen : datas.length ≤ 9999) :
    ∃ w', writeSeq f ⟨true, []⟩ datas = some w' ∧
      w'.names = (List.range datas.length).map (fun i => pyFormat04 (i + 1) ++ "_" ++ f) ∧
      ∀ i < datas.length, (pyFormat04 (i + 1)).length = 4 := by
  obtain ⟨w', hw, _, hn⟩ := writeSeq_names f datas hlen
  refine ⟨w', hw, ?_, ?_⟩
  · rw [hn]
    unfold revList
    refine List.map_congr_left ?_
    intro i hi
    rw [List.mem_range] at hi
    exact (pyFormat04_append (i + 1) (by omega) f).symm
  · intro i hi
    rw [pyFormat04_lt (i + 1) (by omega)]
    simpa using pad4c_length (i + 1)

/-- C3 witness: three writes from an empty directory. -/
theorem c3_revision_sequence_amended_witness :
    ∃ w', writeSeq "x.json" ⟨true, []⟩ [[], [], []] = some w' ∧
      w'.names = (List.range ([[], [], []] : List (List PyRec)).length).map
        (fun i => pyFormat04 (i + 1) ++ "_" ++ "x.json") ∧
      ∀ i < ([[], [], []] : List (List PyRec)).length, (pyFormat04 (i + 1)).length = 4 :=
  c3_revision_sequence_amended "x.json" [[], [], []] (by decide)

end ZeroMigrations
